import Mathlib

/-!
Verification development for the tech-news-curator pipeline.

The Python sources embedded here are:
* `src/summarizer/summarizer.py` — text cleaning, dynamic length budgeting,
  chunked summarization with recursive recombination, per-source formatting,
  and batch summarization (`Summarizer`);
* `src/main.py` — article standardization and duplicate filtering
  (`ArticleProcessor`).

Python strings are modelled as Lean `String`s, with the string operations the
code uses (`split`, `strip`, `lower`, `replace`, `in`, `startswith`, ...)
defined by structural recursion over the underlying character list so that
every definition evaluates by kernel reduction.  Python `int`s are `Int`
(Python floor division coincides with `Int` truncated division on the
non-negative values that arise here).  The external `transformers` model
(tokenizer and generation pipeline) is an explicit oracle (`Model`), with
fallible calls returning `Except String` mirroring Python exceptions carrying
their message.  The recursion of `summarize` through `_summarize_long_text`
is embedded with explicit fuel; a `none` result means the recursion has not
reached a base case within the given fuel.
-/

deriving instance DecidableEq for Except

namespace Curator

/-- The ASCII apostrophe character, used in the HTML-entity table and the
terminal-punctuation list of the summarizer. -/
def apos : Char := Char.ofNat 39

/-- Python `str.split(sep)` on character lists (keeps empty parts, like
`"a,,b".split(",") == ["a", "", "b"]`). -/
def pySplitP (P : Char → Bool) : List Char → List (List Char)
  | [] => [[]]
  | a :: as =>
    if P a then [] :: pySplitP P as
    else
      match pySplitP P as with
      | [] => [[a]]
      | w :: ws => (a :: w) :: ws

/-- Python `str.strip()` on character lists: drop whitespace from both ends. -/
def trimChars (l : List Char) : List Char :=
  ((l.dropWhile Char.isWhitespace).reverse.dropWhile Char.isWhitespace).reverse

/-- One pass of Python `str.replace(pat, rep)` over a character list.  The
`Nat` argument counts characters of an already-matched occurrence that still
have to be skipped (their replacement has been emitted). -/
def replaceGo (pat rep : List Char) : Nat → List Char → List Char
  | _, [] => []
  | k + 1, _ :: as => replaceGo pat rep k as
  | 0, a :: as =>
    if pat.isPrefixOf (a :: as) ∧ pat ≠ [] then
      rep ++ replaceGo pat rep (pat.length - 1) as
    else
      a :: replaceGo pat rep 0 as

/-- Python `str.replace(pat, rep)` (non-empty `pat`; all call sites in the
source use the fixed HTML-entity table). -/
def replaceChars (pat rep l : List Char) : List Char :=
  replaceGo pat rep 0 l

/-- Python `str.split()`: split on whitespace runs, dropping empty parts. -/
def wordsOf (l : List Char) : List (List Char) :=
  (pySplitP Char.isWhitespace l).filter (fun w => w ≠ [])

/-- Python `str.split()` on a `String`, producing the words as `String`s. -/
def pyWords (s : String) : List String :=
  (wordsOf s.data).map String.mk

/-- Python `' '.join(parts)`. -/
def pyJoinSpace (parts : List String) : String :=
  String.mk (List.intercalate [' '] (parts.map String.data))

/-- Python `str.lower()` (ASCII case folding, as used by the source on its
ASCII-only source names, titles and summaries). -/
def pyLower (s : String) : String :=
  String.mk (s.data.map Char.toLower)

/-- Python `str.strip()` on a `String`. -/
def pyStrip (s : String) : String :=
  String.mk (trimChars s.data)

/-- Python `pat in s` (substring containment) for non-degenerate patterns. -/
def listInfix (pat : List Char) : List Char → Bool
  | [] => pat.isEmpty
  | a :: as => pat.isPrefixOf (a :: as) || listInfix pat as

/-- Python `pat in s` on `String`s. -/
def pyContains (s pat : String) : Bool :=
  listInfix pat.data s.data

/-- Python `s.startswith(pat)`. -/
def pyStarts (s pat : String) : Bool :=
  pat.data.isPrefixOf s.data

/-- Python `s.endswith(pat)`. -/
def pyEnds (s pat : String) : Bool :=
  pat.data.isSuffixOf s.data

/-- `Summarizer.clean_text` (summarizer.py lines 41-72): join stripped
non-blank lines with single spaces, collapse whitespace runs, then decode the
fixed HTML-entity table (in the order of the Python dict literal). -/
def clean_text (text : String) : String :=
  if text = "" then ""
  else
    let lines := (pySplitP (fun c => c == '\n') text.data).map trimChars
    let c1 := List.intercalate [' '] (lines.filter (fun l => l ≠ []))
    let c2 := List.intercalate [' '] (wordsOf c1)
    let c3 := replaceChars "&amp;".data ['&'] c2
    let c4 := replaceChars "&lt;".data ['<'] c3
    let c5 := replaceChars "&gt;".data ['>'] c4
    let c6 := replaceChars "&quot;".data ['"'] c5
    String.mk (replaceChars "&#39;".data [apos] c6)

/-- The bucketed dynamic length parameters of `Summarizer.summarize`
(summarizer.py lines 116-131), as `(max_length, min_length)` from the
input word count. -/
def lengthParams (n : Int) : Int × Int :=
  if n < 30 then
    let maxL := max 10 (min (n - 1) 25)
    (maxL, max 5 (maxL / 2))
  else if n < 100 then
    let maxL := min (n * 3 / 5) 50
    (maxL, max 20 (maxL / 2))
  else if n < 300 then
    let maxL := min (n * 3 / 10) 90
    (maxL, max 40 (maxL / 2))
  else
    let maxL := min 120 (n / 4)
    (maxL, max 60 (maxL / 2))

/-- The clamping step of `Summarizer.summarize` (summarizer.py lines 138-140):
if `max_length >= input_length`, clamp to `max(input_length - 1, 5)` and
recompute `min_length = max(3, max_length // 2)`. -/
def clampLengths (n maxL minL : Int) : Int × Int :=
  if maxL ≥ n then
    let m := max (n - 1) 5
    (m, max 3 (m / 2))
  else (maxL, minL)

/-- The `max_length` actually passed to the generation pipeline by
`Summarizer.summarize` for a model-visible input of `n` words. -/
def genMaxLength (n : Int) : Int :=
  (clampLengths n (lengthParams n).1 (lengthParams n).2).1

/-- The external `transformers` backend of `Summarizer`, as an oracle:
`tokCount` is `len(tokenizer(text)["input_ids"][0])` (the tokenizer call may
raise, modelled by `Except.error` carrying `str(e)`); `truncate` is
`tokenizer.decode(ids[:1024-50], skip_special_tokens=True)`; `gen` is
`summarizer_pipeline(text, max_length, min_length, do_sample=False,
num_beams=4)[0]["summary_text"]`, which may also raise.  The remaining
pipeline arguments are the fixed constants visible in the source. -/
structure Model where
  tokCount : String → Except String Nat
  truncate : String → String
  gen : String → Int → Int → Except String String

/-- The chunk start offsets `range(0, n, k)` of
`Summarizer._summarize_long_text` (summarizer.py line 179), for `k > 0`. -/
def chunkStarts (n k : Nat) : List Nat :=
  (List.range n).filter (fun i => i % k = 0)

/-- The word chunks `words[i:i+chunk_size]` built by
`Summarizer._summarize_long_text` (summarizer.py lines 179-181). -/
def chunksOf (k : Nat) (l : List String) : List (List String) :=
  (chunkStarts l.length k).map (fun i => (l.drop i).take k)

/-- The body of the per-chunk loop of `Summarizer._summarize_long_text`
(summarizer.py lines 186-206): the chunk is summarized with the aggressive
length targets `max_length = min(100, words/3)`, `min_length = max(50,
max_length // 2)`; if generation raises, the chunk's first `'.'`-delimited
sentence (with a `'.'` appended when missing) is substituted. -/
def summarizeChunk (m : Model) (cw : List String) : String :=
  let chunk := pyJoinSpace cw
  let maxL : Int := min 100 ((pyWords chunk).length / 3)
  let minL : Int := max 50 (maxL / 2)
  match m.gen chunk maxL minL with
  | .ok s => pyStrip s
  | .error _ =>
    let s0 := String.mk ((pySplitP (fun c => c == '.') chunk.data).headD [])
    s0 ++ (if ¬(pyEnds s0 ".") then "." else "")

/-- The chunk-summary list built by `Summarizer._summarize_long_text`. -/
def chunkSummaries (m : Model) (text : String) (chunk_size : Nat) : List String :=
  (chunksOf chunk_size (pyWords text)).map (summarizeChunk m)

/-- The recombination step of `Summarizer._summarize_long_text`
(summarizer.py lines 208-221), with the recursive `self.summarize` call
abstracted as `recur`.  A `recur` result `Except.error` models the recursive
call raising (caught by the `except` and mapped to the joined chunk
summaries); `none` models the recursion not reaching a base case. -/
def longTextCore (m : Model) (recur : String → Option (Except String String))
    (text : String) (chunk_size : Nat) : Option (Except String String) :=
  let cs := chunkSummaries m text chunk_size
  if 1 < cs.length then
    let combined := pyJoinSpace cs
    match recur combined with
    | some (.ok s) => some (.ok s)
    | some (.error _) => some (.ok combined)
    | none => none
  else if cs.length = 1 then some (.ok (cs.headD ""))
  else some (.ok "Could not generate summary.")

/-- The terminal punctuation list of `Summarizer.summarize`
(summarizer.py line 155). -/
def summaryPunct : List Char := ['.', '!', '?', '"', apos]

/-- `Summarizer.summarize` (summarizer.py lines 74-162) with explicit fuel
bounding the recursion depth through `_summarize_long_text`; `none` means the
mutual recursion has not reached a base case within `fuel` nested calls.
The `summarizer_pipeline`/`tokenizer` are assumed initialized (the
uninitialized early return at lines 84-86 is a degenerate constant path). -/
def summarizeF (m : Model) : Nat → String → Option (Except String String)
  | 0, _ => none
  | fuel + 1, text =>
    let cleaned := clean_text text
    if cleaned = "" then some (.ok "No content available for summarization.")
    else
      let input_length : Int := (pyWords cleaned).length
      if input_length > 1000 then
        longTextCore m (summarizeF m fuel) cleaned 800
      else
        match m.tokCount cleaned with
        | .error e => some (.error e)
        | .ok token_count =>
          let cleaned := if token_count > 1024 then m.truncate cleaned else cleaned
          let input_length : Int :=
            if token_count > 1024 then (pyWords cleaned).length else input_length
          let p := lengthParams input_length
          let q := clampLengths input_length p.1 p.2
          match m.gen cleaned q.1 q.2 with
          | .error e => some (.ok ("Summary unavailable: " ++ e))
          | .ok s =>
            let result := pyStrip s
            some (.ok (if result ≠ "" ∧ ¬(result.data.getLastD ' ' ∈ summaryPunct)
                       then result ++ "." else result))

/-- `Summarizer._summarize_long_text` (summarizer.py lines 164-221): the
chunked path, whose recursive `self.summarize(combined_summary)` call runs
with the given fuel. -/
def summarize_long_textF (m : Model) (fuel : Nat) (text : String)
    (chunk_size : Nat := 800) : Option (Except String String) :=
  longTextCore m (summarizeF m fuel) text chunk_size

/-- A backend whose generation call always raises with message `r`, and whose
tokenizer always succeeds (small token count, so no truncation). -/
def failModel (r : String) : Model :=
  ⟨fun _ => .ok 0, fun s => s, fun _ _ _ => .error r⟩

/-- A backend whose generation call returns the `max_length` it was passed,
used to observe the length budget at the generation call site. -/
def echoModel : Model :=
  ⟨fun _ => .ok 0, fun s => s, fun _ maxL _ => .ok (toString maxL)⟩

/-- The title-overlap counting loop of `Summarizer._format_summary_by_source`
(summarizer.py lines 318-322): the length of the longest common prefix of the
summary's words and the title's words. -/
def commonPrefixLen : List String → List String → Nat
  | [], _ => 0
  | _ :: _, [] => 0
  | a :: as, b :: bs => if a = b then commonPrefixLen as bs + 1 else 0

/-- The final capitalization/punctuation normalization of
`Summarizer._format_summary_by_source` (summarizer.py lines 328-333):
capitalize a lowercase first letter, append `'.'` when the last character is
not terminal punctuation. -/
def finalizeSummary (summary : String) : String :=
  let summary :=
    if summary ≠ "" ∧ (summary.data.headD ' ').isLower then
      String.mk ((summary.data.headD ' ').toUpper :: summary.data.tail)
    else summary
  if summary ≠ "" ∧ ¬(summary.data.getLastD ' ' ∈ ['.', '!', '?']) then
    summary ++ "."
  else summary

/-- The GitHub branch of `Summarizer._format_summary_by_source`
(summarizer.py lines 296-302), on the stripped summary. -/
def githubFormat (summary : String) : String :=
  if ¬(pyStarts (pyLower summary) "this repository" ∨
       pyStarts (pyLower summary) "the repository") then
    if (summary.data.headD ' ').isLower ∧ ¬(pyStarts (pyLower summary) "this") then
      "This repository " ++ summary
    else if ¬(pyContains (pyLower summary) "repository" ∨
              pyContains (pyLower summary) "repo" ∨
              pyContains (pyLower summary) "project") then
      "This repository " ++ summary
    else summary
  else summary

/-- The paper/research branch of `Summarizer._format_summary_by_source`
(summarizer.py lines 305-310), on the stripped summary. -/
def paperFormat (summary : String) : String :=
  if ¬(pyStarts (pyLower summary) "this paper" ∨
       pyStarts (pyLower summary) "the paper" ∨
       pyStarts (pyLower summary) "this study" ∨
       pyStarts (pyLower summary) "the study") then
    if (summary.data.headD ' ').isLower then
      "This paper " ++ summary
    else if ¬(pyContains (pyLower summary) "paper" ∨
              pyContains (pyLower summary) "study" ∨
              pyContains (pyLower summary) "research") then
      "This paper describes " ++ summary
    else summary
  else summary

/-- The news branch of `Summarizer._format_summary_by_source`
(summarizer.py lines 313-326), on the stripped summary: strip the summary's
leading words when they echo more than three words of the title. -/
def newsFormat (summary title : String) : String :=
  if pyStarts (pyLower summary) (String.mk ((pyLower title).data.take 20)) then
    let title_words := pyWords (pyLower title)
    let summary_words := pyWords (pyLower summary)
    let overlap_len := commonPrefixLen summary_words title_words
    if overlap_len > 3 then pyJoinSpace ((pyWords summary).drop overlap_len)
    else summary
  else summary

/-- `Summarizer._format_summary_by_source` (summarizer.py lines 277-335).
The per-branch `summary[0]` accesses are modelled with `headD`; they match
Python wherever the stripped summary is non-empty (on an all-whitespace
summary the Python code would raise `IndexError`). -/
def format_summary_by_source (source summary title : String) : String :=
  if summary = "" then
    "No summary available for this " ++ pyLower source ++ " content."
  else
    let source_lower := pyLower source
    let summary := pyStrip summary
    let summary :=
      if pyContains source_lower "github" then githubFormat summary
      else if pyContains source_lower "paper" ∨ pyContains source_lower "research" then
        paperFormat summary
      else if pyContains source_lower "news" ∨ pyContains source_lower "hacker news" ∨
              pyContains source_lower "dev.to" then
        newsFormat summary title
      else summary
    finalizeSummary summary

/-- A Python dict with text values, as an association list (lookup returns
the first binding, matching a Python dict's unique keys). -/
abbrev StrDict := List (String × String)

/-- Python `d.get(k)` / `d[k]` presence. -/
def pyGet (d : StrDict) (k : String) : Option String :=
  (d.find? (fun p => p.1 == k)).map (fun p => p.2)

/-- Python `d.get(k, default)`. -/
def pyGetD (d : StrDict) (k : String) (dflt : String) : String :=
  (pyGet d k).getD dflt

/-- Python `k in d and d[k]` (key present with a truthy, i.e. non-empty,
value). -/
def hasTruthy (d : StrDict) (k : String) : Bool :=
  match pyGet d k with
  | some v => v != ""
  | none => false

/-- The terminal record emitted per article by `Summarizer.summarize_articles`
(summarizer.py lines 266-272): a dict with exactly these five text fields. -/
structure DigestEntry where
  title : String
  summary : String
  link : String
  source : String
  date : String
deriving DecidableEq

/-- The loop body of `Summarizer.summarize_articles` (summarizer.py lines
239-272) for one article: assemble the text to summarize from title plus
content (or summary) plus description, summarize it, format by source, and
build the digest entry.  `Except.error` models `self.summarize` raising
(which `summarize_articles` does not catch); `none` is exhausted fuel. -/
def summarizeOneF (m : Model) (fuel : Nat) (article : StrDict) :
    Option (Except String DigestEntry) :=
  let text0 := pyGetD article "title" ""
  let text1 :=
    if hasTruthy article "content" then
      text0 ++ "\n\n" ++ pyGetD article "content" ""
    else if hasTruthy article "summary" then
      text0 ++ "\n\n" ++ pyGetD article "summary" ""
    else text0
  let desc := pyGetD article "description" ""
  let text2 :=
    if hasTruthy article "description" && !(pyContains text1 desc) then
      text1 ++ "\n\n" ++ desc
    else text1
  match summarizeF m fuel text2 with
  | none => none
  | some (.error e) => some (.error e)
  | some (.ok generated) =>
    let formatted := format_summary_by_source (pyGetD article "source" "Unknown")
      generated (pyGetD article "title" "")
    some (.ok
      { title := pyGetD article "title" "Untitled"
        summary := formatted
        link := pyGetD article "link" ""
        source := pyGetD article "source" "Unknown"
        date := pyGetD article "date" "" })

/-- `Summarizer.summarize_articles` (summarizer.py lines 223-275): the empty
batch returns `[]`; otherwise the loop appends one digest entry per article
in order, stopping only if a summarization call raises or fuel runs out. -/
def summarize_articlesF (m : Model) (fuel : Nat) :
    List StrDict → Option (Except String (List DigestEntry))
  | [] => some (.ok [])
  | article :: rest =>
    match summarizeOneF m fuel article with
    | none => none
    | some (.error e) => some (.error e)
    | some (.ok entry) =>
      match summarize_articlesF m fuel rest with
      | none => none
      | some (.error e) => some (.error e)
      | some (.ok entries) => some (.ok (entry :: entries))

/-- A Python value that is either text or a nested dict, as needed for the
standardized article whose `original` field holds the raw article dict. -/
inductive PyVal where
  | s : String → PyVal
  | dict : List (String × PyVal) → PyVal

/-- A raw/standardized article dict over `PyVal` values. -/
abbrev PyDict := List (String × PyVal)

/-- Python `d.get(k)` on a `PyVal` dict. -/
def dictGet (d : PyDict) (k : String) : Option PyVal :=
  (d.find? (fun p => p.1 == k)).map (fun p => p.2)

/-- `ArticleProcessor.standardize_article` (main.py lines 93-112).  `today`
is `datetime.now().strftime("%Y-%m-%d")`, passed explicitly to keep the
function pure. -/
def standardize_article (article : PyDict) (source : String) (today : String) : PyDict :=
  [("title", (dictGet article "title").getD (.s "No Title")),
   ("link", (dictGet article "link").getD ((dictGet article "url").getD (.s ""))),
   ("source", .s source),
   ("date", (dictGet article "date").getD (.s today)),
   ("summary", (dictGet article "summary").getD (.s "")),
   ("original", .dict article)]

/-- The keys of a dict, in order. -/
def dictKeys (d : PyDict) : List String := d.map (fun p => p.1)

/-- Look up a key expected to hold text. -/
def dictGetStr (d : PyDict) (k : String) : Option String :=
  match dictGet d k with
  | some (.s v) => some v
  | _ => none

/-- A standardized article as consumed by `ArticleProcessor.filter_duplicates`:
the record shape produced by `standardize_article` (six fields; the filter
reads `title` and `link`, the rest ride along). -/
structure Article where
  title : String
  link : String
  source : String
  date : String
  summary : String
  original : List (String × String)
deriving DecidableEq

/-- The title fingerprint `article["title"].lower().strip()` of
`ArticleProcessor.filter_duplicates` (main.py line 130). -/
def titleFp (article : Article) : String := pyStrip (pyLower article.title)

/-- The link fingerprint `article["link"].strip()` of
`ArticleProcessor.filter_duplicates` (main.py line 131). -/
def linkFp (article : Article) : String := pyStrip article.link

/-- The scan of `ArticleProcessor.filter_duplicates` (main.py lines 125-142),
with the two `seen` sets as lists (only membership is used).  An article is
skipped iff its title fingerprint was recorded, or its link fingerprint is
truthy (non-empty) and was recorded; a kept article records its title
fingerprint always and its link fingerprint only when truthy. -/
def filterDupsGo (seen_titles seen_links : List String) : List Article → List Article
  | [] => []
  | article :: rest =>
    if titleFp article ∈ seen_titles ∨
       (linkFp article ≠ "" ∧ linkFp article ∈ seen_links) then
      filterDupsGo seen_titles seen_links rest
    else
      article :: filterDupsGo (titleFp article :: seen_titles)
        (if linkFp article ≠ "" then linkFp article :: seen_links else seen_links)
        rest

/-- `ArticleProcessor.filter_duplicates` (main.py lines 114-142). -/
def filter_duplicates (articles : List Article) : List Article :=
  filterDupsGo [] [] articles

/-! Concrete backends and articles used by witnesses and counterexamples. -/

/-- A backend whose generation call always succeeds with a fixed summary. -/
def constModel : Model :=
  ⟨fun _ => .ok 0, fun s => s, fun _ _ _ => .ok "a nice summary"⟩

/-- A backend whose tokenizer raises (making `summarize` itself raise on the
non-chunked path) while generation succeeds. -/
def tokFailModel : Model :=
  ⟨fun _ => .error "tokenizer failure", fun s => s, fun _ _ _ => .ok "S"⟩

/-- A 1001-word input on which `summarize` with an always-failing generation
backend recurses on an identical argument forever: each 800-word chunk ends
with its only period, so the first-sentence fallback reproduces the chunk
verbatim and the joined chunk summaries equal the input again. -/
def badWords : List String :=
  List.replicate 799 "w" ++ ["w."] ++ List.replicate 200 "w" ++ ["w."]

/-- The fixed-point input text for the non-termination counterexample. -/
def badText : String := pyJoinSpace badWords

/-- Articles with distinct titles whose trimmed links differ only by case. -/
def linkCaseArt1 : Article := ⟨"t1", "http://A", "s", "d", "", []⟩

/-- See `linkCaseArt1`. -/
def linkCaseArt2 : Article := ⟨"t2", "http://a", "s", "d", "", []⟩

/-- The spec's exact-dedup scenario articles: same title up to case,
different links. -/
def dupArt1 : Article := ⟨"X", "http://a", "s", "d", "", []⟩

/-- See `dupArt1`. -/
def dupArt2 : Article := ⟨"x", "http://b", "s", "d", "", []⟩

/-- The character list underlying `pyJoinSpace` (used by the symbolic
word-level lemmas below). -/
def jnChars (ws : List String) : List Char :=
  List.intercalate [' '] (ws.map String.data)

/-- A word as produced by whitespace splitting: non-empty, no whitespace. -/
def GoodWord (w : String) : Prop :=
  w.data ≠ [] ∧ ∀ c ∈ w.data, c.isWhitespace = false

/-! ### Lemmas about the split/join/replace primitives -/

theorem pySplitP_ne_nil (P : Char → Bool) (l : List Char) : pySplitP P l ≠ [] := by
  cases l with
  | nil => simp [pySplitP]
  | cons a as =>
    simp only [pySplitP]
    split
    · simp
    · cases h : pySplitP P as <;> simp

theorem pySplitP_cons_exists (P : Char → Bool) (l : List Char) :
    ∃ h t, pySplitP P l = h :: t := by
  cases hl : pySplitP P l with
  | nil => exact absurd hl (pySplitP_ne_nil P l)
  | cons h t => exact ⟨h, t, rfl⟩

theorem pySplitP_sep_cons (P : Char → Bool) (a : Char) (l : List Char) (h : P a = true) :
    pySplitP P (a :: l) = [] :: pySplitP P l := by
  simp [pySplitP, h]

theorem pySplitP_nonsep_append (P : Char → Bool) (w : List Char) (l : List Char)
    (hw : ∀ c ∈ w, P c = false) {h : List Char} {t : List (List Char)}
    (hl : pySplitP P l = h :: t) :
    pySplitP P (w ++ l) = (w ++ h) :: t := by
  induction w with
  | nil => simpa using hl
  | cons a w ih =>
    have ha : P a = false := hw a (by simp)
    have ih' := ih (fun c hc => hw c (by simp [hc]))
    simp only [List.cons_append, pySplitP, ha, Bool.false_eq_true, if_false,
      List.append_eq, ih']

theorem pySplitP_eq_single (P : Char → Bool) (l : List Char) (h : ∀ c ∈ l, P c = false) :
    pySplitP P l = [l] := by
  simpa using pySplitP_nonsep_append P l [] h (show pySplitP P [] = [] :: [] from rfl)

theorem mem_word_of_pySplitP (P : Char → Bool) {c : Char} (hc : P c = false)
    {l : List Char} (h : c ∈ l) : ∃ w ∈ pySplitP P l, c ∈ w := by
  induction l with
  | nil => cases h
  | cons a as ih =>
    by_cases hPa : P a = true
    · rw [pySplitP_sep_cons P a as hPa]
      rcases List.mem_cons.mp h with rfl | hmem
      · rw [hPa] at hc; cases hc
      · obtain ⟨w, hw, hcw⟩ := ih hmem
        exact ⟨w, List.mem_cons_of_mem _ hw, hcw⟩
    · have ha : P a = false := by revert hPa; cases P a <;> simp
      obtain ⟨h0, t0, hsplit⟩ := pySplitP_cons_exists P as
      have hstep : pySplitP P (a :: as) = (a :: h0) :: t0 := by
        simpa using pySplitP_nonsep_append P [a] as
          (by intro x hx; rw [List.mem_singleton.mp hx]; exact ha) hsplit
      rw [hstep]
      rcases List.mem_cons.mp h with rfl | hmem
      · exact ⟨_, List.mem_cons_self _ _, List.mem_cons_self _ _⟩
      · obtain ⟨w, hw, hcw⟩ := ih hmem
        rw [hsplit] at hw
        rcases List.mem_cons.mp hw with rfl | hw'
        · exact ⟨a :: w, by simp, List.mem_cons_of_mem _ hcw⟩
        · exact ⟨w, List.mem_cons_of_mem _ hw', hcw⟩

theorem intercalate_cons_cons (sep p q : List Char) (qs : List (List Char)) :
    List.intercalate sep (p :: q :: qs) = p ++ sep ++ List.intercalate sep (q :: qs) := by
  simp [List.intercalate, List.append_assoc]

theorem intercalate_single (sep p : List Char) : List.intercalate sep [p] = p := by
  simp [List.intercalate]

theorem mem_intercalate_of_mem {c : Char} (sep : List Char) {w : List Char}
    {ps : List (List Char)} (hw : w ∈ ps) (hc : c ∈ w) : c ∈ List.intercalate sep ps := by
  induction ps with
  | nil => cases hw
  | cons p ps ih =>
    cases ps with
    | nil =>
      obtain rfl := List.mem_singleton.mp hw
      rwa [intercalate_single]
    | cons q qs =>
      rw [intercalate_cons_cons]
      rcases List.mem_cons.mp hw with rfl | hw'
      · exact List.mem_append_left _ (List.mem_append_left _ hc)
      · exact List.mem_append_right _ (ih hw')

theorem jnChars_single (w : String) : jnChars [w] = w.data := by
  simp [jnChars, intercalate_single]

theorem jnChars_cons (w : String) (ws : List String) (h : ws ≠ []) :
    jnChars (w :: ws) = w.data ++ ' ' :: jnChars ws := by
  cases ws with
  | nil => cases h rfl
  | cons v vs =>
    rw [jnChars, List.map_cons, List.map_cons, intercalate_cons_cons]
    simp [jnChars, List.append_assoc]

theorem jnChars_append (xs ys : List String) (hx : xs ≠ []) (hy : ys ≠ []) :
    jnChars (xs ++ ys) = jnChars xs ++ ' ' :: jnChars ys := by
  induction xs with
  | nil => cases hx rfl
  | cons w xs ih =>
    cases xs with
    | nil => simp [jnChars_single, jnChars_cons w ys hy]
    | cons x xs' =>
      rw [List.cons_append, jnChars_cons w (x :: xs' ++ ys) (by simp),
        ih (by simp), jnChars_cons w (x :: xs') (by simp)]
      simp [List.append_assoc]

theorem mem_jnChars {c : Char} :
    ∀ {ws : List String}, c ∈ jnChars ws → c = ' ' ∨ ∃ w ∈ ws, c ∈ w.data
  | [], h => absurd h (by simp [jnChars, List.intercalate])
  | [w], h => by
    rw [jnChars_single] at h
    exact Or.inr ⟨w, by simp, h⟩
  | w :: v :: vs, h => by
    rw [jnChars_cons w (v :: vs) (by simp)] at h
    rcases List.mem_append.mp h with hw | hrest
    · exact Or.inr ⟨w, by simp, hw⟩
    · rcases List.mem_cons.mp hrest with rfl | htail
      · exact Or.inl rfl
      · rcases mem_jnChars htail with hsp | ⟨u, hu, hcu⟩
        · exact Or.inl hsp
        · exact Or.inr ⟨u, List.mem_cons_of_mem _ hu, hcu⟩

theorem wordsOf_jnChars : ∀ (ws : List String), (∀ w ∈ ws, GoodWord w) →
    wordsOf (jnChars ws) = ws.map String.data
  | [], _ => rfl
  | [w], h => by
    have hw := h w (by simp)
    rw [jnChars_single, wordsOf, pySplitP_eq_single _ _ hw.2]
    simp [hw.1]
  | w :: v :: vs, h => by
    have hw := h w (by simp)
    rw [jnChars_cons w (v :: vs) (by simp)]
    obtain ⟨h0, t0, hsplit⟩ := pySplitP_cons_exists Char.isWhitespace (jnChars (v :: vs))
    have hsep : pySplitP Char.isWhitespace (' ' :: jnChars (v :: vs)) = [] :: h0 :: t0 := by
      rw [pySplitP_sep_cons _ _ _ (by decide), hsplit]
    rw [wordsOf, pySplitP_nonsep_append _ _ _ hw.2 hsep]
    have htail : List.filter (fun x => decide (x ≠ [])) (h0 :: t0)
        = wordsOf (jnChars (v :: vs)) := by
      rw [wordsOf, hsplit]
    simp only [List.append_nil]
    rw [List.filter_cons_of_pos (by simp [hw.1]), htail,
      wordsOf_jnChars (v :: vs) (fun u hu => h u (List.mem_cons_of_mem _ hu))]
    simp

theorem pyWords_joinSpace (ws : List String) (h : ∀ w ∈ ws, GoodWord w) :
    pyWords (pyJoinSpace ws) = ws := by
  have hdata : (pyJoinSpace ws).data = jnChars ws := rfl
  rw [pyWords, hdata, wordsOf_jnChars ws h, List.map_map]
  have : (String.mk ∘ String.data) = id := funext fun s => rfl
  rw [this, List.map_id]

theorem mem_dropWhile_of_mem (p : Char → Bool) {c : Char} (hc : p c = false) :
    ∀ {l : List Char}, c ∈ l → c ∈ l.dropWhile p
  | [], h => absurd h (by simp)
  | a :: as, h => by
    rw [List.dropWhile_cons]
    by_cases hpa : p a = true
    · rw [if_pos hpa]
      rcases List.mem_cons.mp h with rfl | hmem
      · rw [hpa] at hc; cases hc
      · exact mem_dropWhile_of_mem p hc hmem
    · rw [if_neg hpa]; exact h

theorem mem_trimChars {c : Char} (hc : c.isWhitespace = false) {l : List Char}
    (h : c ∈ l) : c ∈ trimChars l := by
  rw [trimChars]
  apply List.mem_reverse.mpr
  apply mem_dropWhile_of_mem _ hc
  apply List.mem_reverse.mpr
  exact mem_dropWhile_of_mem _ hc h

theorem replaceGo_skip (pat rep : List Char) :
    ∀ (t rest : List Char), replaceGo pat rep t.length (t ++ rest) = replaceGo pat rep 0 rest
  | [], rest => rfl
  | a :: t, rest => by
    rw [List.length_cons, List.cons_append]
    show replaceGo pat rep t.length (t ++ rest) = _
    exact replaceGo_skip pat rep t rest

theorem replaceGo_id (rep l : List Char) {pat : List Char} {p0 : Char} {pr : List Char}
    (hp : pat = p0 :: pr) (h : p0 ∉ l) : replaceGo pat rep 0 l = l := by
  induction l with
  | nil => rfl
  | cons a as ih =>
    have hne : ¬(pat.isPrefixOf (a :: as) ∧ pat ≠ []) := by
      rintro ⟨hpre, -⟩
      rw [hp] at hpre
      simp only [List.isPrefixOf, Bool.and_eq_true, beq_iff_eq] at hpre
      exact h (hpre.1 ▸ List.mem_cons_self _ _)
    rw [replaceGo, if_neg hne, ih (fun hm => h (List.mem_cons_of_mem _ hm))]

theorem exists_of_isPrefixOf :
    ∀ {l₁ l₂ : List Char}, l₁.isPrefixOf l₂ = true → ∃ t, l₂ = l₁ ++ t
  | [], l₂, _ => ⟨l₂, rfl⟩
  | _ :: _, [], h => by simp [List.isPrefixOf] at h
  | a :: as, b :: bs, h => by
    simp only [List.isPrefixOf, Bool.and_eq_true, beq_iff_eq] at h
    obtain ⟨rfl, h2⟩ := h
    obtain ⟨t, ht⟩ := exists_of_isPrefixOf h2
    exact ⟨t, by rw [ht]; rfl⟩

theorem mem_of_isSuffixOf_singleton {c : Char} {l : List Char}
    (h : [c].isSuffixOf l = true) : c ∈ l := by
  rw [List.isSuffixOf] at h
  have h' : [c].isPrefixOf l.reverse = true := h
  obtain ⟨t, ht⟩ := exists_of_isPrefixOf h'
  have : c ∈ l.reverse := by rw [ht]; simp
  simpa using this

theorem mem_replaceGo {c : Char} (pat rep : List Char) (hpat : c ∉ pat) :
    ∀ {l : List Char}, c ∈ l → c ∈ replaceGo pat rep 0 l := by
  suffices H : ∀ n (l : List Char), l.length ≤ n → c ∈ l → c ∈ replaceGo pat rep 0 l by
    intro l hl
    exact H l.length l le_rfl hl
  intro n
  induction n with
  | zero =>
    intro l hl hm
    have : l = [] := List.eq_nil_of_length_eq_zero (Nat.le_zero.mp hl)
    subst this
    cases hm
  | succ n ih =>
    intro l hl hm
    match l, hl, hm with
    | a :: as, hl, hm =>
      by_cases hp : pat.isPrefixOf (a :: as) ∧ pat ≠ []
      · obtain ⟨p0, pr, rfl⟩ : ∃ p0 pr, pat = p0 :: pr := by
          cases pat with
          | nil => cases hp.2 rfl
          | cons p0 pr => exact ⟨p0, pr, rfl⟩
        rw [replaceGo, if_pos hp]
        obtain ⟨t, ht⟩ := exists_of_isPrefixOf hp.1
        rw [List.cons_append] at ht
        injection ht with ha has
        apply List.mem_append_right
        have hlen : (p0 :: pr).length - 1 = pr.length := by simp
        rw [hlen, has, replaceGo_skip]
        have hct : c ∈ t := by
          rcases List.mem_cons.mp hm with rfl | hmem
        -- c = a = p0 would contradict c ∉ pat
          · exact absurd (ha ▸ List.mem_cons_self _ _) hpat
          · rw [has] at hmem
            rcases List.mem_append.mp hmem with hpr | hct
            · exact absurd (List.mem_cons_of_mem _ hpr) hpat
            · exact hct
        have hle : t.length ≤ n := by
          simp only [List.length_cons] at hl
          have hlen2 := congrArg List.length has
          simp only [List.length_append] at hlen2
          omega
        exact ih t hle hct
      · rw [replaceGo, if_neg hp]
        rcases List.mem_cons.mp hm with rfl | hmem
        · exact List.mem_cons_self _ _
        · refine List.mem_cons_of_mem _ (ih as ?_ hmem)
          simp only [List.length_cons] at hl
          omega

theorem mem_replaceChars {c : Char} (pat rep : List Char) (hpat : c ∉ pat)
    {l : List Char} (h : c ∈ l) : c ∈ replaceChars pat rep l :=
  mem_replaceGo pat rep hpat h

theorem trimChars_eq_self {l : List Char}
    (h1 : ∀ c, l.head? = some c → c.isWhitespace = false)
    (h2 : ∀ c, l.getLast? = some c → c.isWhitespace = false) :
    trimChars l = l := by
  have hd : ∀ (m : List Char), (∀ c, m.head? = some c → c.isWhitespace = false) →
      m.dropWhile Char.isWhitespace = m := by
    intro m hm
    cases m with
    | nil => rfl
    | cons a t =>
      rw [List.dropWhile_cons, if_neg (by simp [hm a rfl])]
  rw [trimChars, hd l h1, hd l.reverse ?hrev, List.reverse_reverse]
  case hrev =>
    intro c hc
    rw [List.head?_reverse] at hc
    exact h2 c hc

theorem clean_text_eq (text : String) (h : text ≠ "") :
    clean_text text = String.mk (replaceChars "&#39;".data [apos]
      (replaceChars "&quot;".data ['"']
        (replaceChars "&gt;".data ['>']
          (replaceChars "&lt;".data ['<']
            (replaceChars "&amp;".data ['&']
              (List.intercalate [' '] (wordsOf
                (List.intercalate [' ']
                  (((pySplitP (fun c => c == '\n') text.data).map trimChars).filter
                    (fun l => l ≠ [])))))))))) := by
  simp only [clean_text, if_neg h]

theorem clean_text_ne_empty_of_dot {s : String} (h : '.' ∈ s.data) : clean_text s ≠ "" := by
  have hs : s ≠ "" := by
    intro he
    subst he
    simp at h
  rw [clean_text_eq s hs]
  obtain ⟨w, hw, hdw⟩ := mem_word_of_pySplitP (fun c => c == '\n') (by decide) h
  have htr : '.' ∈ trimChars w := mem_trimChars (by decide) hdw
  have hfil : trimChars w ∈ ((pySplitP (fun c => c == '\n') s.data).map trimChars).filter
      (fun l => l ≠ []) := by
    rw [List.mem_filter]
    exact ⟨List.mem_map_of_mem _ hw, by simp [List.ne_nil_of_mem htr]⟩
  have hc1 := mem_intercalate_of_mem [' '] hfil htr
  obtain ⟨w2, hw2, hdw2⟩ := mem_word_of_pySplitP Char.isWhitespace (by decide) hc1
  have hw2f : w2 ∈ wordsOf (List.intercalate [' ']
      (((pySplitP (fun c => c == '\n') s.data).map trimChars).filter (fun l => l ≠ []))) := by
    rw [wordsOf, List.mem_filter]
    exact ⟨hw2, by simp [List.ne_nil_of_mem hdw2]⟩
  have hc2 := mem_intercalate_of_mem [' '] hw2f hdw2
  have hc3 := mem_replaceChars "&amp;".data ['&'] (by decide) hc2
  have hc4 := mem_replaceChars "&lt;".data ['<'] (by decide) hc3
  have hc5 := mem_replaceChars "&gt;".data ['>'] (by decide) hc4
  have hc6 := mem_replaceChars "&quot;".data ['"'] (by decide) hc5
  have hc7 := mem_replaceChars "&#39;".data [apos] (by decide) hc6
  intro heq
  have hnil : replaceChars "&#39;".data [apos]
      (replaceChars "&quot;".data ['"']
        (replaceChars "&gt;".data ['>']
          (replaceChars "&lt;".data ['<']
            (replaceChars "&amp;".data ['&']
              (List.intercalate [' '] (wordsOf
                (List.intercalate [' ']
                  (((pySplitP (fun c => c == '\n') s.data).map trimChars).filter
                    (fun l => l ≠ []))))))))) = [] := congrArg String.data heq
  exact List.not_mem_nil _ (hnil ▸ hc7)

theorem mem_of_head? {c : Char} {m : List Char} (h : m.head? = some c) : c ∈ m := by
  cases m with
  | nil => cases h
  | cons a t =>
    simp only [List.head?_cons, Option.some.injEq] at h
    rw [← h]
    exact List.mem_cons_self _ _

theorem mem_of_getLast? {c : Char} {m : List Char} (h : m.getLast? = some c) : c ∈ m := by
  rw [← List.head?_reverse] at h
  simpa using mem_of_head? h

theorem head?_append_left {m : List Char} (X : List Char) (hm : m ≠ []) :
    (m ++ X).head? = m.head? := by
  cases m with
  | nil => cases hm rfl
  | cons a t => rfl

theorem getLast?_append_right (X : List Char) {Y : List Char} (hy : Y ≠ []) :
    (X ++ Y).getLast? = Y.getLast? := by
  rw [← List.head?_reverse, ← List.head?_reverse, List.reverse_append]
  cases hr : Y.reverse with
  | nil => exact absurd (by simpa using hr) hy
  | cons b s => simp

theorem jnChars_head?_ws (ws : List String) (h : ∀ w ∈ ws, GoodWord w) :
    ∀ c, (jnChars ws).head? = some c → c.isWhitespace = false := by
  intro c hc
  cases ws with
  | nil => cases hc
  | cons w0 ws0 =>
    have hw0 := h w0 (by simp)
    cases ws0 with
    | nil =>
      rw [jnChars_single] at hc
      exact hw0.2 c (mem_of_head? hc)
    | cons v vs =>
      rw [jnChars_cons _ _ (by simp), head?_append_left _ hw0.1] at hc
      exact hw0.2 c (mem_of_head? hc)

theorem jnChars_getLast?_ws (ws : List String) (h : ∀ w ∈ ws, GoodWord w) :
    ∀ c, (jnChars ws).getLast? = some c → c.isWhitespace = false := by
  intro c hc
  rcases ws.eq_nil_or_concat with rfl | ⟨ws', v, rfl⟩
  · cases hc
  · rw [List.concat_eq_append] at hc h
    have hv := h v (by simp)
    rcases ws' with - | ⟨x, xs⟩
    · rw [List.nil_append, jnChars_single] at hc
      exact hv.2 c (mem_of_getLast? hc)
    · rw [jnChars_append _ _ (by simp) (by simp), getLast?_append_right _ (by simp),
        jnChars_single, show (' ' :: v.data) = [' '] ++ v.data from rfl,
        getLast?_append_right _ hv.1] at hc
      exact hv.2 c (mem_of_getLast? hc)

theorem replaceChars_id (rep l : List Char) {pat : List Char} {p0 : Char} {pr : List Char}
    (hp : pat = p0 :: pr) (h : p0 ∉ l) : replaceChars pat rep l = l :=
  replaceGo_id rep l hp h

theorem clean_text_joinSpace (ws : List String) (hne : ws ≠ [])
    (h : ∀ w ∈ ws, GoodWord w) (hamp : ∀ w ∈ ws, '&' ∉ w.data) :
    clean_text (pyJoinSpace ws) = pyJoinSpace ws := by
  have hdata : (pyJoinSpace ws).data = jnChars ws := rfl
  have hJne : jnChars ws ≠ [] := by
    obtain ⟨w0, ws0, rfl⟩ := List.exists_cons_of_ne_nil hne
    have hw0 := h w0 (by simp)
    cases ws0 with
    | nil => rw [jnChars_single]; exact hw0.1
    | cons v vs =>
      rw [jnChars_cons _ _ (by simp)]
      simp [hw0.1]
  have hsne : pyJoinSpace ws ≠ "" := by
    intro he
    exact hJne (by rw [← hdata, he])
  rw [clean_text_eq _ hsne, hdata]
  have hnl : ∀ c ∈ jnChars ws, (c == '\n') = false := by
    intro c hc
    rcases mem_jnChars hc with rfl | ⟨w, hw, hcw⟩
    · decide
    · have hgw := (h w hw).2 c hcw
      rw [beq_eq_false_iff_ne]
      intro heq
      rw [heq] at hgw
      simp at hgw
  rw [pySplitP_eq_single _ _ hnl]
  have htrim : trimChars (jnChars ws) = jnChars ws :=
    trimChars_eq_self (jnChars_head?_ws ws h) (jnChars_getLast?_ws ws h)
  rw [List.map_cons, List.map_nil, htrim, List.filter_cons_of_pos (by simp [hJne]),
    List.filter_nil, intercalate_single, wordsOf_jnChars ws h]
  have hampJ : '&' ∉ jnChars ws := by
    intro hc
    rcases mem_jnChars hc with h' | ⟨w, hw, hcw⟩
    · exact absurd h' (by decide)
    · exact hamp w hw hcw
  have hJdef : List.intercalate [' '] (ws.map String.data) = jnChars ws := rfl
  rw [hJdef, replaceChars_id _ _ (show "&amp;".data = '&' :: "amp;".data from rfl) hampJ,
    replaceChars_id _ _ (show "&lt;".data = '&' :: "lt;".data from rfl) hampJ,
    replaceChars_id _ _ (show "&gt;".data = '&' :: "gt;".data from rfl) hampJ,
    replaceChars_id _ _ (show "&quot;".data = '&' :: "quot;".data from rfl) hampJ,
    replaceChars_id _ _ (show "&#39;".data = '&' :: "#39;".data from rfl) hampJ]
  rfl

theorem str_ext {s t : String} (h : s.data = t.data) : s = t := by
  cases s with
  | mk d1 =>
    cases t with
    | mk d2 => exact congrArg String.mk (by simpa using h)

theorem pySplitP_dot (Y : List Char) (hdot : '.' ∉ Y) :
    pySplitP (fun c => c == '.') (Y ++ ['.']) = [Y, []] := by
  have h1 : pySplitP (fun c => c == '.') ['.'] = [[], []] := by decide
  simpa using pySplitP_nonsep_append _ Y ['.']
    (fun c hc => beq_eq_false_iff_ne.mpr (fun he => hdot (by rw [← he]; exact hc))) h1

/-- A failed chunk whose text is `Y ++ "."` with no other period falls back
to exactly itself: the first sentence is `Y` and the `'.'` is re-appended. -/
theorem summarizeChunk_fail_fixed (r : String) (cw : List String) (Y : List Char)
    (hY : (pyJoinSpace cw).data = Y ++ ['.']) (hdot : '.' ∉ Y) :
    summarizeChunk (failModel r) cw = pyJoinSpace cw := by
  have hred : summarizeChunk (failModel r) cw =
      (String.mk ((pySplitP (fun c => c == '.') (pyJoinSpace cw).data).headD [])) ++
        (if ¬(pyEnds (String.mk ((pySplitP (fun c => c == '.')
            (pyJoinSpace cw).data).headD [])) ".") then "." else "") := rfl
  rw [hred, hY, pySplitP_dot Y hdot]
  have hends : pyEnds (String.mk Y) "." = false := by
    cases hb : pyEnds (String.mk Y) "." with
    | false => rfl
    | true =>
      exact absurd (mem_of_isSuffixOf_singleton
        (show ['.'].isSuffixOf Y = true from hb)) hdot
  simp only [List.headD_cons, hends, Bool.false_eq_true, not_false_iff, if_true]
  exact str_ext (by rw [hY]; rfl)

theorem badWords_cases : ∀ w ∈ badWords, w = "w" ∨ w = "w." := by
  intro w hw
  rw [badWords] at hw
  simp only [List.mem_append, List.mem_replicate, List.mem_singleton] at hw
  tauto

theorem badWords_good : ∀ w ∈ badWords, GoodWord w := by
  intro w hw
  rcases badWords_cases w hw with rfl | rfl <;> exact ⟨by decide, by decide⟩

theorem badWords_amp : ∀ w ∈ badWords, '&' ∉ w.data := by
  intro w hw
  rcases badWords_cases w hw with rfl | rfl <;> decide

theorem badWords_length : badWords.length = 1001 := by
  rw [badWords]
  simp only [List.length_append, List.length_replicate, List.length_cons, List.length_nil]

theorem badWords_ne_nil : badWords ≠ [] := by
  intro h
  have h2 := congrArg List.length h
  rw [badWords_length] at h2
  simp at h2

theorem clean_text_badText : clean_text badText = badText :=
  clean_text_joinSpace badWords badWords_ne_nil badWords_good badWords_amp

theorem pyWords_badText : pyWords badText = badWords :=
  pyWords_joinSpace badWords badWords_good

theorem chunkStarts_eq_single : ∀ (n : Nat), 0 < n → n ≤ 800 → chunkStarts n 800 = [0] := by
  intro n
  induction n with
  | zero => intro h; cases h
  | succ n ih =>
    intro _ h2
    rw [chunkStarts, List.range_succ, List.filter_append]
    have hfull : List.filter (fun i => decide (i % 800 = 0)) (List.range n)
        = chunkStarts n 800 := rfl
    rcases Nat.eq_zero_or_pos n with rfl | hn
    · decide
    · rw [hfull, ih hn (Nat.le_of_succ_le h2)]
      have hne : ¬(n % 800 = 0) := by
        rw [Nat.mod_eq_of_lt (by omega)]
        omega
      simp [List.filter_cons, hne]

theorem chunkStarts_eq_double : ∀ (n : Nat), 800 < n → n ≤ 1600 →
    chunkStarts n 800 = [0, 800] := by
  intro n
  induction n with
  | zero => intro h; cases h
  | succ n ih =>
    intro h1 h2
    rw [chunkStarts, List.range_succ, List.filter_append]
    have hfull : List.filter (fun i => decide (i % 800 = 0)) (List.range n)
        = chunkStarts n 800 := rfl
    rcases Nat.lt_or_ge 800 n with hgt | hle
    · rw [hfull, ih hgt (by omega)]
      have hne : ¬(n % 800 = 0) := by
        have hm : n % 800 = n - 800 := by
          rw [Nat.mod_eq_sub_mod (by omega), Nat.mod_eq_of_lt (by omega)]
        omega
      simp [List.filter_cons, hne]
    · have hn800 : n = 800 := by omega
      subst hn800
      rw [hfull, chunkStarts_eq_single 800 (by omega) le_rfl]
      simp [List.filter_cons]

theorem chunksOf_badWords :
    chunksOf 800 badWords =
      [List.replicate 799 "w" ++ ["w."], List.replicate 200 "w" ++ ["w."]] := by
  rw [chunksOf, badWords_length, chunkStarts_eq_double 1001 (by omega) (by omega),
    List.map_cons, List.map_cons, List.map_nil, List.drop_zero]
  have hbw : badWords
      = List.replicate 799 "w" ++ (["w."] ++ (List.replicate 200 "w" ++ ["w."])) := by
    rw [badWords, List.append_assoc, List.append_assoc]
  have h1 : List.take 800 badWords = List.replicate 799 "w" ++ ["w."] := by
    rw [hbw, List.take_append_eq_append_take]
    simp only [List.take_replicate, List.length_replicate]
    norm_num
  have h2 : List.take 800 (List.drop 800 badWords) = List.replicate 200 "w" ++ ["w."] := by
    rw [hbw, List.drop_append_eq_append_drop]
    simp only [List.drop_replicate, List.length_replicate]
    norm_num
  rw [h1, h2]

theorem dot_not_mem_jn_replicate (n : Nat) : '.' ∉ jnChars (List.replicate n "w") := by
  intro h
  rcases mem_jnChars h with h' | ⟨w, hw, hcw⟩
  · exact absurd h' (by decide)
  · rw [List.eq_of_mem_replicate hw] at hcw
    exact absurd hcw (by decide)

theorem jn_chunk_decomp (n : Nat) (hn : 0 < n) :
    ∃ Y, (pyJoinSpace (List.replicate n "w" ++ ["w."])).data = Y ++ ['.'] ∧ '.' ∉ Y := by
  refine ⟨jnChars (List.replicate n "w") ++ [' ', 'w'], ?_, ?_⟩
  · show jnChars (List.replicate n "w" ++ ["w."]) = _
    rw [jnChars_append _ _ (by simp [Nat.pos_iff_ne_zero.mp hn]) (by simp), jnChars_single]
    show jnChars (List.replicate n "w") ++ ([' ', 'w'] ++ ['.']) = _
    rw [List.append_assoc]
  · intro h
    rcases List.mem_append.mp h with h1 | h2
    · exact dot_not_mem_jn_replicate n h1
    · exact absurd h2 (by decide)

theorem chunkSummaries_badText (r : String) :
    chunkSummaries (failModel r) badText 800 =
      [pyJoinSpace (List.replicate 799 "w" ++ ["w."]),
       pyJoinSpace (List.replicate 200 "w" ++ ["w."])] := by
  rw [chunkSummaries, pyWords_badText, chunksOf_badWords, List.map_cons,
    List.map_cons, List.map_nil]
  obtain ⟨Y1, hY1, hd1⟩ := jn_chunk_decomp 799 (by omega)
  obtain ⟨Y2, hY2, hd2⟩ := jn_chunk_decomp 200 (by omega)
  rw [summarizeChunk_fail_fixed r _ Y1 hY1 hd1, summarizeChunk_fail_fixed r _ Y2 hY2 hd2]

theorem badWords_eq_chunks_append :
    badWords = (List.replicate 799 "w" ++ ["w."]) ++ (List.replicate 200 "w" ++ ["w."]) := by
  rw [badWords, List.append_assoc (List.replicate 799 "w" ++ ["w."])]

theorem chunk_ne_nil (n : Nat) : List.replicate n "w" ++ ["w."] ≠ [] := by
  intro h
  exact absurd (List.append_eq_nil.mp h).2 (List.cons_ne_nil _ _)

theorem joinSpace_badChunks :
    pyJoinSpace [pyJoinSpace (List.replicate 799 "w" ++ ["w."]),
      pyJoinSpace (List.replicate 200 "w" ++ ["w."])] = badText := by
  apply str_ext
  show jnChars [pyJoinSpace (List.replicate 799 "w" ++ ["w."]),
      pyJoinSpace (List.replicate 200 "w" ++ ["w."])] = jnChars badWords
  rw [jnChars_cons _ _ (List.cons_ne_nil _ _), jnChars_single, badWords_eq_chunks_append,
    jnChars_append _ _ (chunk_ne_nil 799) (chunk_ne_nil 200)]
  rfl

theorem badText_ne_empty : badText ≠ "" := by
  intro h
  apply badWords_ne_nil
  have h2 := pyWords_badText
  rw [h, show pyWords "" = [] from rfl] at h2
  exact h2.symm

theorem summarizeF_badText_step (r : String) (fuel : Nat) :
    summarizeF (failModel r) (fuel + 1) badText =
      match summarizeF (failModel r) fuel badText with
      | some (.ok s) => some (.ok s)
      | some (.error _) => some (.ok badText)
      | none => none := by
  simp only [summarizeF, clean_text_badText, if_neg badText_ne_empty]
  rw [pyWords_badText, badWords_length,
    if_pos (by norm_num : ((1001 : Nat) : Int) > 1000)]
  simp only [longTextCore, chunkSummaries_badText, List.length_cons, List.length_nil]
  rw [if_pos (by norm_num), joinSpace_badChunks]

theorem summarizeF_badText_none (r : String) :
    ∀ fuel, summarizeF (failModel r) fuel badText = none := by
  intro fuel
  induction fuel with
  | zero => rfl
  | succ n ih => rw [summarizeF_badText_step, ih]

theorem chunkSummaries_length (m : Model) (t : String) (k : Nat) :
    (chunkSummaries m t k).length = (chunkStarts (pyWords t).length k).length := by
  rw [chunkSummaries, chunksOf, List.length_map, List.length_map]

theorem two_le_of_two_mem {l : List Nat} {a b : Nat} (ha : a ∈ l) (hb : b ∈ l)
    (hab : a ≠ b) : 1 < l.length := by
  match l with
  | [] => cases ha
  | [x] =>
    rw [List.mem_singleton] at ha hb
    exact absurd (ha.trans hb.symm) hab
  | x :: y :: t =>
    simp only [List.length_cons]
    omega

theorem chunkStarts_two (n : Nat) (h : 800 < n) : 1 < (chunkStarts n 800).length := by
  apply two_le_of_two_mem (a := 0) (b := 800) _ _ (by omega)
  · rw [chunkStarts, List.mem_filter]
    exact ⟨List.mem_range.mpr (by omega), by decide⟩
  · rw [chunkStarts, List.mem_filter]
    exact ⟨List.mem_range.mpr h, by decide⟩

theorem dot_mem_summarizeChunk_fail (r : String) (cw : List String) :
    '.' ∈ (summarizeChunk (failModel r) cw).data := by
  have hred : summarizeChunk (failModel r) cw =
      (String.mk ((pySplitP (fun c => c == '.') (pyJoinSpace cw).data).headD [])) ++
        (if ¬(pyEnds (String.mk ((pySplitP (fun c => c == '.')
            (pyJoinSpace cw).data).headD [])) ".") then "." else "") := rfl
  rw [hred]
  cases hE : pyEnds (String.mk ((pySplitP (fun c => c == '.')
      (pyJoinSpace cw).data).headD [])) "." with
  | true =>
    rw [if_neg (by simp [hE])]
    have hdot := mem_of_isSuffixOf_singleton
      (show ['.'].isSuffixOf ((pySplitP (fun c => c == '.')
        (pyJoinSpace cw).data).headD []) = true from hE)
    rw [String.data_append]
    exact List.mem_append_left _ hdot
  | false =>
    rw [if_pos (by simp [hE]), String.data_append]
    exact List.mem_append_right _ (by decide)

theorem dot_mem_joinSpace {cs : List String} (hne : cs ≠ [])
    (h : ∀ x ∈ cs, '.' ∈ x.data) : '.' ∈ (pyJoinSpace cs).data := by
  obtain ⟨c0, cs0, rfl⟩ := List.exists_cons_of_ne_nil hne
  show '.' ∈ jnChars (c0 :: cs0)
  exact mem_intercalate_of_mem [' '] (List.mem_map_of_mem _ (by simp)) (h c0 (by simp))

theorem summarizeF_empty (m : Model) (fuel : Nat) (text : String)
    (h : clean_text text = "") :
    summarizeF m (fuel + 1) text = some (.ok "No content available for summarization.") := by
  simp only [summarizeF]
  rw [if_pos h]

theorem summarizeF_fail_invariant (r : String) :
    ∀ fuel (text : String) (v : Except String String),
      summarizeF (failModel r) fuel text = some v →
      v = .ok (if clean_text text = "" then "No content available for summarization."
               else "Summary unavailable: " ++ r) := by
  intro fuel
  induction fuel with
  | zero =>
    intro text v h
    cases h
  | succ n ih =>
    intro text v h
    by_cases hc : clean_text text = ""
    · rw [if_pos hc]
      rw [summarizeF_empty _ n text hc] at h
      exact (Option.some.inj h).symm
    · rw [if_neg hc]
      by_cases hlong : ((pyWords (clean_text text)).length : Int) > 1000
      · simp only [summarizeF] at h
        rw [if_neg hc, if_pos hlong] at h
        have hlen : 1 < (chunkSummaries (failModel r) (clean_text text) 800).length := by
          rw [chunkSummaries_length]
          apply chunkStarts_two
          have : (1000 : Int) < (pyWords (clean_text text)).length := hlong
          exact_mod_cast lt_trans (by norm_num : (800 : Int) < 1000) this
        simp only [longTextCore] at h
        rw [if_pos hlen] at h
        cases hrec : summarizeF (failModel r) n
            (pyJoinSpace (chunkSummaries (failModel r) (clean_text text) 800)) with
        | none => rw [hrec] at h; cases h
        | some w =>
          rw [hrec] at h
          have hw := ih _ w hrec
          have hdot : '.' ∈ (pyJoinSpace
              (chunkSummaries (failModel r) (clean_text text) 800)).data := by
            apply dot_mem_joinSpace
            · intro hnil
              rw [hnil] at hlen
              simp at hlen
            · intro x hx
              rw [chunkSummaries] at hx
              obtain ⟨cw, -, rfl⟩ := List.mem_map.mp hx
              exact dot_mem_summarizeChunk_fail r cw
          rw [if_neg (clean_text_ne_empty_of_dot hdot)] at hw
          subst hw
          exact (Option.some.inj h).symm
      · simp only [summarizeF] at h
        rw [if_neg hc, if_neg hlong] at h
        have h2 : some (Except.ok ("Summary unavailable: " ++ r) : Except String String)
            = some v := h
        exact (Option.some.inj h2).symm

theorem filterDupsGo_sublist (xs : List Article) :
    ∀ st sl, (filterDupsGo st sl xs).Sublist xs := by
  induction xs with
  | nil =>
    intro st sl
    simp [filterDupsGo]
  | cons a rest ih =>
    intro st sl
    rw [filterDupsGo]
    split
    · exact (ih _ _).cons a
    · exact (ih _ _).cons₂ a

theorem filterDupsGo_not_seen (xs : List Article) :
    ∀ st sl a, a ∈ filterDupsGo st sl xs →
      titleFp a ∉ st ∧ (linkFp a ≠ "" → linkFp a ∉ sl) := by
  induction xs with
  | nil =>
    intro st sl a h
    cases h
  | cons x rest ih =>
    intro st sl a h
    rw [filterDupsGo] at h
    by_cases hd : titleFp x ∈ st ∨ (linkFp x ≠ "" ∧ linkFp x ∈ sl)
    · rw [if_pos hd] at h
      exact ih _ _ a h
    · rw [if_neg hd] at h
      push_neg at hd
      rcases List.mem_cons.mp h with rfl | hm
      · exact ⟨hd.1, fun hne hsl => hd.2 hne hsl⟩
      · have hrec := ih _ _ a hm
        refine ⟨fun hst => hrec.1 (List.mem_cons_of_mem _ hst), fun hne hsl => ?_⟩
        apply hrec.2 hne
        by_cases hx : linkFp x ≠ ""
        · rw [if_pos hx]
          exact List.mem_cons_of_mem _ hsl
        · rw [if_neg hx]
          exact hsl

theorem filterDupsGo_pairwise (xs : List Article) :
    ∀ st sl, List.Pairwise (fun a b => titleFp a ≠ titleFp b ∧
      (linkFp a = "" ∨ linkFp b = "" ∨ linkFp a ≠ linkFp b)) (filterDupsGo st sl xs) := by
  induction xs with
  | nil =>
    intro st sl
    simp [filterDupsGo]
  | cons x rest ih =>
    intro st sl
    rw [filterDupsGo]
    split
    · exact ih _ _
    · refine List.Pairwise.cons ?_ (ih _ _)
      intro b hb
      have hbs := filterDupsGo_not_seen rest _ _ b hb
      constructor
      · intro he
        apply hbs.1
        rw [← he]
        exact List.mem_cons_self _ _
      · by_cases hx : linkFp x = ""
        · exact Or.inl hx
        · by_cases hb' : linkFp b = ""
          · exact Or.inr (Or.inl hb')
          · refine Or.inr (Or.inr ?_)
            intro he
            apply hbs.2 hb'
            rw [if_pos hx]
            rw [← he]
            exact List.mem_cons_self _ _

theorem filterDupsGo_idem (xs : List Article) :
    ∀ st sl, filterDupsGo st sl (filterDupsGo st sl xs) = filterDupsGo st sl xs := by
  induction xs with
  | nil =>
    intro st sl
    rfl
  | cons x rest ih =>
    intro st sl
    rw [filterDupsGo]
    by_cases hd : titleFp x ∈ st ∨ (linkFp x ≠ "" ∧ linkFp x ∈ sl)
    · rw [if_pos hd]
      exact ih st sl
    · rw [if_neg hd, filterDupsGo, if_neg hd, ih]

theorem summarizeOneF_fields (m : Model) (fuel : Nat) (a : StrDict) (e : DigestEntry)
    (h : summarizeOneF m fuel a = some (.ok e)) :
    e.title = pyGetD a "title" "Untitled" ∧ e.link = pyGetD a "link" ""
    ∧ e.source = pyGetD a "source" "Unknown" ∧ e.date = pyGetD a "date" "" := by
  rw [summarizeOneF] at h
  split at h
  · cases h
  · simp at h
  · cases Except.ok.inj (Option.some.inj h)
    exact ⟨rfl, rfl, rfl, rfl⟩

theorem summarize_articlesF_spec (m : Model) (fuel : Nat) :
    ∀ (articles : List StrDict) (out : List DigestEntry),
      summarize_articlesF m fuel articles = some (.ok out) →
      out.length = articles.length ∧
      ∀ i (hi : i < articles.length) (ho : i < out.length),
        summarizeOneF m fuel (articles.get ⟨i, hi⟩) = some (.ok (out.get ⟨i, ho⟩)) := by
  intro articles
  induction articles with
  | nil =>
    intro out h
    rw [summarize_articlesF] at h
    obtain rfl : ([] : List DigestEntry) = out := Except.ok.inj (Option.some.inj h)
    exact ⟨rfl, fun i hi => absurd hi (by simp)⟩
  | cons a rest ih =>
    intro out h
    rw [summarize_articlesF] at h
    split at h
    · cases h
    · simp at h
    · rename_i entry hentry
      split at h
      · cases h
      · simp at h
      · rename_i entries hentries
        obtain rfl := Except.ok.inj (Option.some.inj h)
        obtain ⟨hlen, hidx⟩ := ih entries hentries
        refine ⟨by simp [hlen], ?_⟩
        intro i hi ho
        cases i with
        | zero => simpa using hentry
        | succ j =>
          simp only [List.get_cons_succ]
          exact hidx j (by simpa using hi) (by simpa using ho)

/-! ### Claims -/

/-- Claim C1 (counterexample): for a cleaned input of 3 words reaching the
generation step, the clamp floor of 5 leaves `max_length = 5`, which is not
strictly less than the input length 3; the echo backend observes `5` arriving
at the generation call. -/
theorem summarize_max_length_floor_counterexample :
    genMaxLength 3 = 5 ∧ ¬(genMaxLength 3 < 3)
    ∧ summarizeF echoModel 1 "a b c" = some (.ok "5.") :=
  ⟨by decide, by decide, by decide⟩

/-- Claim C1 (amended): for every input length `n` with `6 ≤ n ≤ 5000`, the
`max_length` passed to generation after the clamping step is strictly less
than `n`; for `n ≤ 5` the floor of 5 makes `max_length = 5 ≥ n`. -/
theorem summarize_max_length_invariant (n : Int) (h1 : 6 ≤ n) (h2 : n ≤ 5000) :
    genMaxLength n < n := by
  rw [genMaxLength, clampLengths]
  by_cases h : (lengthParams n).1 ≥ n
  · rw [if_pos h]
    show max (n - 1) 5 < n
    rw [max_eq_left (by omega : (5 : Int) ≤ n - 1)]
    omega
  · rw [if_neg h]
    exact not_le.mp h

/-- Claim C1 witness: the amended invariant at `n = 20`. -/
theorem summarize_max_length_invariant_witness :
    (6 : Int) ≤ 20 ∧ genMaxLength 20 < 20 :=
  ⟨by decide, summarize_max_length_invariant 20 (by decide) (by decide)⟩

/-- Claim C2 (counterexample): two articles with distinct titles whose
trimmed links differ only by case both survive `filter_duplicates`, yet
their case-folded trimmed links are equal and non-empty — the link
fingerprint is trimmed but not case-folded. -/
theorem dedup_link_casefold_counterexample :
    filter_duplicates [linkCaseArt1, linkCaseArt2] = [linkCaseArt1, linkCaseArt2]
    ∧ pyLower (pyStrip linkCaseArt1.link) = pyLower (pyStrip linkCaseArt2.link)
    ∧ pyStrip linkCaseArt1.link ≠ "" ∧ pyStrip linkCaseArt2.link ≠ ""
    ∧ linkCaseArt1 ≠ linkCaseArt2 := by
  decide

/-- Claim C2 (amended): for every pair of articles surviving
`filter_duplicates`, the case-folded trimmed titles differ, and either one
of the trimmed links is empty or the trimmed (not case-folded) links
differ. -/
theorem dedup_fingerprint_law (xs : List Article) :
    List.Pairwise (fun a b => titleFp a ≠ titleFp b ∧
      (linkFp a = "" ∨ linkFp b = "" ∨ linkFp a ≠ linkFp b)) (filter_duplicates xs) :=
  filterDupsGo_pairwise xs [] []

/-- Claim C3: `filter_duplicates` is an order-preserving subsequence computed
by a single left-to-right scan: an article is dropped iff its title
fingerprint was recorded earlier or its non-empty link fingerprint was
recorded earlier; a kept article always records its title fingerprint and
records its link fingerprint only when non-empty. -/
theorem dedup_scan_characterization :
    (∀ xs : List Article, (filter_duplicates xs).Sublist xs)
    ∧ (∀ (st sl : List String) (a : Article) (rest : List Article),
        (titleFp a ∈ st ∨ (linkFp a ≠ "" ∧ linkFp a ∈ sl)) →
          filterDupsGo st sl (a :: rest) = filterDupsGo st sl rest)
    ∧ (∀ (st sl : List String) (a : Article) (rest : List Article),
        ¬(titleFp a ∈ st ∨ (linkFp a ≠ "" ∧ linkFp a ∈ sl)) →
          filterDupsGo st sl (a :: rest) =
            a :: filterDupsGo (titleFp a :: st)
              (if linkFp a ≠ "" then linkFp a :: sl else sl) rest) := by
  refine ⟨fun xs => filterDupsGo_sublist xs [] [], ?_, ?_⟩
  · intro st sl a rest h
    rw [filterDupsGo, if_pos h]
  · intro st sl a rest h
    rw [filterDupsGo, if_neg h]

/-- Claim C3 witness: the scan equations at concrete articles (the spec's
exact-dedup scenario pair). -/
theorem dedup_scan_characterization_witness :
    (filter_duplicates [dupArt1, dupArt2]).Sublist [dupArt1, dupArt2]
    ∧ filterDupsGo ["x"] [] [dupArt2] = filterDupsGo ["x"] [] []
    ∧ filterDupsGo [] [] [dupArt1] = [dupArt1] :=
  ⟨dedup_scan_characterization.1 [dupArt1, dupArt2],
   dedup_scan_characterization.2.1 ["x"] [] dupArt2 [] (by decide),
   (dedup_scan_characterization.2.2 [] [] dupArt1 [] (by decide)).trans (by decide)⟩

/-- Claim C4: the recombination of `_summarize_long_text` by case on the
number of chunk summaries: more than one joins them with spaces and
re-invokes `summarize` (falling back to the joined text verbatim when the
recursive call raises); exactly one returns that chunk's summary with no
recursive call (any fuel); zero returns the fixed sentinel. -/
theorem long_text_recombination (m : Model) (fuel : Nat) (text : String) (k : Nat) :
    (1 < (chunkSummaries m text k).length →
      summarize_long_textF m fuel text k =
        match summarizeF m fuel (pyJoinSpace (chunkSummaries m text k)) with
        | some (.ok s) => some (.ok s)
        | some (.error _) => some (.ok (pyJoinSpace (chunkSummaries m text k)))
        | none => none)
    ∧ ((chunkSummaries m text k).length = 1 → ∀ fuel',
        summarize_long_textF m fuel' text k
          = some (.ok ((chunkSummaries m text k).headD "")))
    ∧ ((chunkSummaries m text k).length = 0 → ∀ fuel',
        summarize_long_textF m fuel' text k
          = some (.ok "Could not generate summary.")) := by
  refine ⟨?_, ?_, ?_⟩
  · intro h
    simp only [summarize_long_textF, longTextCore]
    rw [if_pos h]
  · intro h fuel'
    simp only [summarize_long_textF, longTextCore]
    rw [if_neg (by omega), if_pos h]
  · intro h fuel'
    simp only [summarize_long_textF, longTextCore]
    rw [if_neg (by omega), if_neg (by omega)]

/-- Claim C4 witness: all three recombination cases at concrete inputs,
including the raising recursive call (failing tokenizer) falling back to the
joined chunk summaries. -/
theorem long_text_recombination_witness :
    summarize_long_textF tokFailModel 1 "a b" 1 = some (.ok "S S")
    ∧ summarize_long_textF tokFailModel 0 "a" 1 = some (.ok "S")
    ∧ summarize_long_textF tokFailModel 0 "" 1 = some (.ok "Could not generate summary.") :=
  ⟨((long_text_recombination tokFailModel 1 "a b" 1).1 (by decide)).trans (by decide),
   ((long_text_recombination tokFailModel 0 "a" 1).2.1 (by decide) 0).trans (by decide),
   (long_text_recombination tokFailModel 0 "" 1).2.2 (by decide) 0⟩

/-- Claim C5: evaluating `standardize_article` at a raw article carrying
extracted content: the standardized record has exactly the six keys
`title, link, source, date, summary, original` — no `content` field — while
the title and date defaults behave as described.  The full extracted body
text is therefore dropped from the canonical record (it survives only inside
`original`), so the summarizer's content branch can never fire downstream. -/
theorem standardize_drops_content :
    dictKeys (standardize_article [("title", .s "T"), ("content", .s "FULL BODY")]
        "Hacker News" "2025-01-01")
      = ["title", "link", "source", "date", "summary", "original"]
    ∧ (dictGet (standardize_article [("title", .s "T"), ("content", .s "FULL BODY")]
        "Hacker News" "2025-01-01") "content").isNone = true
    ∧ dictGetStr (standardize_article [("title", .s "T"), ("content", .s "FULL BODY")]
        "Hacker News" "2025-01-01") "summary" = some ""
    ∧ dictGetStr (standardize_article [] "S" "2025-06-01") "title" = some "No Title"
    ∧ dictGetStr (standardize_article [] "S" "2025-06-01") "date" = some "2025-06-01" := by
  decide

/-- Claim C6: with a backend whose generation call raises with message `r`,
every terminating run of `summarize` returns the visible placeholder
`"Summary unavailable: " ++ r` (or the no-content sentinel when the cleaned
input is empty); and an input whose cleaned text is empty short-circuits to
the sentinel for every backend, without invoking the model. -/
theorem summarize_failure_semantics :
    (∀ (r : String) (fuel : Nat) (text : String) (v : Except String String),
      summarizeF (failModel r) fuel text = some v →
      v = .ok (if clean_text text = "" then "No content available for summarization."
               else "Summary unavailable: " ++ r))
    ∧ (∀ (m : Model) (fuel : Nat) (text : String), clean_text text = "" →
      summarizeF m (fuel + 1) text
        = some (.ok "No content available for summarization.")) :=
  ⟨fun r fuel text v h => summarizeF_fail_invariant r fuel text v h,
   fun m fuel text h => summarizeF_empty m fuel text h⟩

/-- Claim C6 witness: the failure placeholder at a concrete input, and the
empty-input sentinel under an arbitrary concrete backend. -/
theorem summarize_failure_semantics_witness :
    (Except.ok "Summary unavailable: boom" : Except String String)
      = .ok (if clean_text "hi there" = "" then "No content available for summarization."
             else "Summary unavailable: " ++ "boom")
    ∧ summarizeF (failModel "ignored") 1 " \n "
      = some (.ok "No content available for summarization.") :=
  ⟨summarize_failure_semantics.1 "boom" 1 "hi there" _ (by decide),
   summarize_failure_semantics.2 (failModel "ignored") 0 " \n " (by decide)⟩

/-- Claim C7 (counterexample): for a GitHub source, the summary
`"Runs fast"` has an uppercase first character and mentions no repository
term, yet the formatter still prefixes `"This repository "` — contradicting
the claim that prefixing happens exactly when the first character is
lowercase (among the other conditions). -/
theorem github_prefix_counterexample :
    format_summary_by_source "GitHub Trending" "Runs fast" "t"
      = "This repository Runs fast."
    ∧ ("Runs fast".data.headD ' ').isLower = false
    ∧ pyContains (pyLower "Runs fast") "repo" = false
    ∧ pyStarts (pyLower "Runs fast") "this repository" = false := by
  decide

/-- Claim C7 (amended): for a source containing "github" and a summary that
strips to something non-empty, the formatter applies `githubFormat` to the
stripped summary and then the final normalization; `githubFormat` prefixes
`"This repository "` exactly when the summary does not already start with a
repository-referencing phrase and either (its first character is lowercase
and it does not start with "this") or (that first test fails and it nowhere
mentions "repository"/"repo"/"project"); the spec's scenario holds. -/
theorem github_prefix_amended :
    (∀ (source summary title : String),
      pyContains (pyLower source) "github" = true → pyStrip summary ≠ "" →
      format_summary_by_source source summary title
        = finalizeSummary (githubFormat (pyStrip summary)))
    ∧ (∀ summary : String,
      githubFormat summary =
        if ¬(pyStarts (pyLower summary) "this repository" ∨
             pyStarts (pyLower summary) "the repository") then
          if ((summary.data.headD ' ').isLower ∧ ¬(pyStarts (pyLower summary) "this")) ∨
             (¬((summary.data.headD ' ').isLower ∧ ¬(pyStarts (pyLower summary) "this")) ∧
              ¬(pyContains (pyLower summary) "repository" ∨
                pyContains (pyLower summary) "repo" ∨
                pyContains (pyLower summary) "project"))
          then "This repository " ++ summary
          else summary
        else summary)
    ∧ format_summary_by_source "GitHub Trending" "provides a fast parser for X" ""
      = "This repository provides a fast parser for X." := by
  refine ⟨?_, ?_, by decide⟩
  · intro source summary title hg hs
    have hne : summary ≠ "" := fun he => hs (by rw [he]; rfl)
    simp only [format_summary_by_source]
    rw [if_neg hne, if_pos hg]
  · intro summary
    rw [githubFormat]
    by_cases h1 : pyStarts (pyLower summary) "this repository" ∨
        pyStarts (pyLower summary) "the repository"
    · rw [if_neg (not_not_intro h1), if_neg (not_not_intro h1)]
    · rw [if_pos h1, if_pos h1]
      by_cases h2 : ((summary.data.headD ' ').isLower ∧
          ¬(pyStarts (pyLower summary) "this"))
      · rw [if_pos h2, if_pos (Or.inl h2)]
      · rw [if_neg h2]
        by_cases h3 : pyContains (pyLower summary) "repository" ∨
            pyContains (pyLower summary) "repo" ∨ pyContains (pyLower summary) "project"
        · rw [if_neg (not_not_intro h3), if_neg (by tauto)]
        · rw [if_pos h3, if_pos (Or.inr ⟨h2, h3⟩)]

/-- Claim C7 witness: the branch equation applied at a concrete github
source and unstripped summary. -/
theorem github_prefix_amended_witness :
    format_summary_by_source "my-github" " adds stuff " "x"
      = finalizeSummary (githubFormat (pyStrip " adds stuff ")) :=
  github_prefix_amended.1 "my-github" " adds stuff " "x" (by decide) (by decide)

/-- Claim C8: `filter_duplicates` is idempotent. -/
theorem filter_duplicates_idempotent (xs : List Article) :
    filter_duplicates (filter_duplicates xs) = filter_duplicates xs :=
  filterDupsGo_idem xs [] []

/-- Claim C9 (counterexample): `summarize` does not terminate on every
input: on the 1001-word input `badText`, with a backend whose generation
always fails, each chunk's first-sentence fallback reproduces the chunk,
the joined chunk summaries equal the input, and the meta-summarization
recursion re-invokes `summarize` on an identical argument forever — no
amount of fuel produces a result. -/
theorem summarize_nontermination_counterexample :
    ¬ ∃ fuel, (summarizeF (failModel "model error") fuel badText).isSome := by
  rintro ⟨fuel, h⟩
  rw [summarizeF_badText_none] at h
  simp at h

/-- Claim C9 (amended): `summarize` reaches a base case without any
recursive self-invocation whenever the cleaned input has at most 1000
words (one unit of fuel suffices); for longer inputs termination is not
guaranteed by the recursion structure. -/
theorem summarize_short_input_terminates (m : Model) (fuel : Nat) (text : String)
    (h : (pyWords (clean_text text)).length ≤ 1000) :
    (summarizeF m (fuel + 1) text).isSome := by
  simp only [summarizeF]
  by_cases hc : clean_text text = ""
  · rw [if_pos hc]
    rfl
  · rw [if_neg hc, if_neg (not_lt.mpr (by exact_mod_cast h))]
    split
    · rfl
    · split
      · rfl
      · rfl

/-- Claim C9 witness: termination with one unit of fuel at a concrete short
input. -/
theorem summarize_short_input_terminates_witness :
    (pyWords (clean_text "hello world")).length ≤ 1000
    ∧ (summarizeF (failModel "e") 1 "hello world").isSome :=
  ⟨by decide, summarize_short_input_terminates (failModel "e") 0 "hello world" (by decide)⟩

/-- Claim C10: whenever `summarize_articles` returns, it returns exactly one
digest entry per input article, in order, each derived from its article by
the per-article loop body; the entry's title, link, source and date equal
the article's (with defaults "Untitled", "", "Unknown", "" when absent) and
only the summary is newly computed. -/
theorem summarize_articles_frame (m : Model) (fuel : Nat) (articles : List StrDict)
    (out : List DigestEntry) (h : summarize_articlesF m fuel articles = some (.ok out)) :
    out.length = articles.length
    ∧ ∀ i (hi : i < articles.length) (ho : i < out.length),
      summarizeOneF m fuel (articles.get ⟨i, hi⟩) = some (.ok (out.get ⟨i, ho⟩))
      ∧ (out.get ⟨i, ho⟩).title = pyGetD (articles.get ⟨i, hi⟩) "title" "Untitled"
      ∧ (out.get ⟨i, ho⟩).link = pyGetD (articles.get ⟨i, hi⟩) "link" ""
      ∧ (out.get ⟨i, ho⟩).source = pyGetD (articles.get ⟨i, hi⟩) "source" "Unknown"
      ∧ (out.get ⟨i, ho⟩).date = pyGetD (articles.get ⟨i, hi⟩) "date" "" := by
  obtain ⟨hlen, hidx⟩ := summarize_articlesF_spec m fuel articles out h
  refine ⟨hlen, fun i hi ho => ?_⟩
  have h1 := hidx i hi ho
  have h2 := summarizeOneF_fields m fuel _ _ h1
  exact ⟨h1, h2.1, h2.2.1, h2.2.2.1, h2.2.2.2⟩

/-- Claim C10 witness: the frame property applied to a concrete one-article
batch with a succeeding backend. -/
theorem summarize_articles_frame_witness :
    ([(⟨"Hello world", "A nice summary.", "http://x", "Unknown", ""⟩ : DigestEntry)]).length
      = ([[("title", "Hello world"), ("link", "http://x")]] : List StrDict).length
    ∧ summarizeOneF constModel 1 [("title", "Hello world"), ("link", "http://x")]
      = some (.ok ⟨"Hello world", "A nice summary.", "http://x", "Unknown", ""⟩) :=
  have h := summarize_articles_frame constModel 1
    [[("title", "Hello world"), ("link", "http://x")]]
    [⟨"Hello world", "A nice summary.", "http://x", "Unknown", ""⟩] (by decide)
  ⟨h.1, by simpa using (h.2 0 (by decide) (by decide)).1⟩

end Curator
